import Mathlib

/-!
Shallow embedding of the FEM assembly core (quadrature engine, load-vector
assembler, stiffness-matrix assembler, non-smooth load-vector variant).

Numbers are modelled in exact arithmetic.  The 2-point Gauss-Legendre nodes
are `±1/√3`, so scalar values live in the ring `ℚ(√3)`, embedded below as the
computable structure `Q3` of pairs `a + b·√3` with `a b : ℚ`.  The mesh
coordinates, coefficients and boundary values are rationals.

Arrays are modelled as a length together with a total contents function
(`PyVec`), and every indexing operation of the source is embedded with
the Python runtime semantics: bound checks (with negative-index wrap-around)
that raise `IndexError`, and broadcasting slice-assignments that raise
`ValueError` on shape mismatch, both surfaced through `Except`.  The
stiffness assembler, whose claims all fix `len(H) = M-1` so that every access
`H[k]`, `A[i,j]` is in bounds, is embedded directly with total indexing.
-/

/-- Exact scalars `a + b·√3` — the subring `ℚ(√3)` of the reals in which all
quantities of the program live (the quadrature nodes contribute the `√3`). -/
structure Q3 where
  a : ℚ
  b : ℚ
deriving DecidableEq, Repr

namespace Q3

/-- Embedding of a rational number. -/
def ofRat (q : ℚ) : Q3 := ⟨q, 0⟩

instance : Zero Q3 := ⟨⟨0, 0⟩⟩
instance : One Q3 := ⟨⟨1, 0⟩⟩
instance : Add Q3 := ⟨fun x y => ⟨x.a + y.a, x.b + y.b⟩⟩
instance : Neg Q3 := ⟨fun x => ⟨-x.a, -x.b⟩⟩
instance : Sub Q3 := ⟨fun x y => ⟨x.a - y.a, x.b - y.b⟩⟩
instance : Mul Q3 := ⟨fun x y => ⟨x.a * y.a + 3 * x.b * y.b, x.a * y.b + x.b * y.a⟩⟩

/-- Inverse via the conjugate: `(a + b√3)⁻¹ = (a - b√3)/(a² - 3b²)`
(junk value `0` when the denominator vanishes, as for `ℚ` itself). -/
def inv1 (x : Q3) : Q3 := ⟨x.a / (x.a ^ 2 - 3 * x.b ^ 2), -x.b / (x.a ^ 2 - 3 * x.b ^ 2)⟩

instance : Inv Q3 := ⟨inv1⟩
instance : Div Q3 := ⟨fun x y => x * y⁻¹⟩

end Q3

/-! ## Python runtime model: arrays, indexing, errors -/

/-- Runtime errors the embedded code can raise. -/
inductive PyErr where
  | indexError : PyErr
  | valueError : PyErr
deriving DecidableEq, Repr

/-- A numpy-style 1-d array: a length and a total contents function
(entries at positions `≥ len` are irrelevant junk). -/
structure PyVec (α : Type) where
  len : ℕ
  val : ℕ → α

/-- Python index resolution: non-negative indices must be `< len`, negative
indices wrap around by adding `len`; otherwise `IndexError`. -/
def pyIdx (len : ℕ) (i : ℤ) : Except PyErr ℕ :=
  if 0 ≤ i then
    (if i < (len : ℤ) then Except.ok i.toNat else Except.error PyErr.indexError)
  else
    (if 0 ≤ (len : ℤ) + i then Except.ok ((len : ℤ) + i).toNat
     else Except.error PyErr.indexError)

/-- Reads `v[i]` with Python semantics. -/
def PyVec.get1 {α : Type} (v : PyVec α) (i : ℤ) : Except PyErr α :=
  (pyIdx v.len i).map v.val

/-- Writes `v[i] = x` with Python semantics. -/
def PyVec.set1 {α : Type} (v : PyVec α) (i : ℤ) (x : α) : Except PyErr (PyVec α) :=
  (pyIdx v.len i).map fun k => ⟨v.len, fun j => if j = k then x else v.val j⟩

/-- Performs `F[i:i+2] += p` for a length-2 right-hand side: the slice must have
length 2 (i.e. `i+1 < len`), otherwise numpy raises a broadcast
`ValueError`. -/
def sliceAdd2 (F : PyVec Q3) (i : ℕ) (p : Q3 × Q3) : Except PyErr (PyVec Q3) :=
  if i + 1 < F.len then
    Except.ok ⟨F.len, fun j =>
      if j = i then F.val j + p.1 else if j = i + 1 then F.val j + p.2 else F.val j⟩
  else Except.error PyErr.valueError

/-- Value at position `j` of a successfully produced array, `none` on error. -/
def okVal? (r : Except PyErr (PyVec Q3)) (j : ℕ) : Option Q3 :=
  match r with
  | Except.ok v => some (v.val j)
  | Except.error _ => none

/-- Length of a successfully produced array, `none` on error. -/
def okLen? (r : Except PyErr (PyVec Q3)) : Option ℕ :=
  match r with
  | Except.ok v => some v.len
  | Except.error _ => none

/-! ## quadrature.py -/

/-- First node of `np.polynomial.legendre.leggauss(2)`: `-1/√3 = -(1/3)·√3`. -/
def ksi0 : Q3 := ⟨0, -(1/3)⟩

/-- Second node of `np.polynomial.legendre.leggauss(2)`: `1/√3 = (1/3)·√3`. -/
def ksi1 : Q3 := ⟨0, 1/3⟩

/-- Embeds `gaussian_quad(f, x0, x1)`: maps the canonical nodes by
`q = 0.5*(x1-x0)*ksi + 0.5*(x1+x0)` and returns `0.5*(x1-x0)*sum(w*f(q))`
with weights `w = [1, 1]`. -/
def gaussian_quad (f : Q3 → Q3) (x0 x1 : ℚ) : Q3 :=
  Q3.ofRat ((x1 - x0) / 2) *
    (f (Q3.ofRat ((x1 - x0) / 2) * ksi0 + Q3.ofRat ((x1 + x0) / 2)) +
     f (Q3.ofRat ((x1 - x0) / 2) * ksi1 + Q3.ofRat ((x1 + x0) / 2)))

/-- Embeds `quadrature_phi0(f, x0, x1) = gaussian_quad(lambda x: f(x)*(x-x0)/(x1-x0), x0, x1)`. -/
def quadrature_phi0 (f : Q3 → Q3) (x0 x1 : ℚ) : Q3 :=
  gaussian_quad (fun x => f x * (x - Q3.ofRat x0) / Q3.ofRat (x1 - x0)) x0 x1

/-- Embeds `quadrature_phi1(f, x0, x1) = gaussian_quad(lambda x: f(x)*(x1-x)/(x1-x0), x0, x1)`. -/
def quadrature_phi1 (f : Q3 → Q3) (x0 x1 : ℚ) : Q3 :=
  gaussian_quad (fun x => f x * (Q3.ofRat x1 - x) / Q3.ofRat (x1 - x0)) x0 x1

/-! ## load_vector.py -/

/-- Embeds `elemental_load_vector(f, x0, x1)`: the pair of integrals of `f` against
the two local basis functions on `[x0, x1]`. -/
def elemental_load_vector (f : Q3 → Q3) (x0 x1 : ℚ) : Q3 × Q3 :=
  (quadrature_phi0 f x0 x1, quadrature_phi1 f x0 x1)

/-- The element loop of `load_vector`: `for i in range(n): F[i:i+2] +=
elemental_load_vector(f, X[i], X[i+1])`, run for `n` iterations `0, …, n-1`
in order, propagating the first runtime error. -/
def loadLoop (f : Q3 → Q3) (X : PyVec ℚ) : ℕ → PyVec Q3 → Except PyErr (PyVec Q3)
  | 0, F => Except.ok F
  | n + 1, F => do
      let F1 ← loadLoop f X n F
      let x0 ← X.get1 (n : ℤ)
      let x1 ← X.get1 ((n : ℤ) + 1)
      sliceAdd2 F1 n (elemental_load_vector f x0 x1)

/-- The accumulation phase of `load_vector`: `F = np.zeros(M)` followed by the
element loop `for i in range(M-1)`. -/
def loadAccum (f : Q3 → Q3) (X : PyVec ℚ) (M : ℕ) : Except PyErr (PyVec Q3) :=
  loadLoop f X (M - 1) ⟨M, fun _ => 0⟩

/-- Embeds `load_vector(f, X, M, g0, g1)` (with the default elemental load vector):
element accumulation, then `F[2] += g0/(X[1]-X[0])` and
`F[-2] += g1/(X[-1]-X[-2])` (each `+=` first subscripts the target, matching
the CPython evaluation order), and finally returns `F[1:-1]`. -/
def load_vector (f : Q3 → Q3) (X : PyVec ℚ) (M : ℕ) (g0 g1 : ℚ) :
    Except PyErr (PyVec Q3) := do
  let F1 ← loadAccum f X M
  let t2 ← F1.get1 2
  let xa ← X.get1 1
  let xb ← X.get1 0
  let F2 ← F1.set1 2 (t2 + Q3.ofRat (g0 / (xa - xb)))
  let tm ← F2.get1 (-2)
  let xc ← X.get1 (-1)
  let xd ← X.get1 (-2)
  let F3 ← F2.set1 (-2) (tm + Q3.ofRat (g1 / (xc - xd)))
  Except.ok ⟨F3.len - 2, fun j => F3.val (j + 1)⟩

/-- The element accumulation as claim C1 states it: only the interior
elements `i = 1 .. M-3` contribute, element `i` adding its elemental load
vector into positions `i` and `i+1`.  This definition follows the words of the claim (not the
source) and is used to compare the loop of the source against it. -/
def loadAccumClaimed (f : Q3 → Q3) (X : PyVec ℚ) (M : ℕ) (j : ℕ) : Q3 :=
  (((List.range (M - 3)).map (fun t =>
      (if j = t + 1 then (elemental_load_vector f (X.val (t+1)) (X.val (t+2))).1 else 0) +
      (if j = t + 2 then (elemental_load_vector f (X.val (t+1)) (X.val (t+2))).2 else 0))).foldl
    (fun acc x => acc + x) 0)

/-! ## stiffness_matrix.py -/

/-- Embeds `elemental_stiffness_matrix(alpha, b, c, h)`, as a total function on index
pairs (entries outside `{0,1} × {0,1}` are 0). -/
def elemental_stiffness_matrix (alpha b c h : ℚ) : ℕ → ℕ → ℚ := fun i j =>
  if i = 0 then
    (if j = 0 then alpha/h + b/2 + c*h/3 else if j = 1 then -alpha/h + b/2 + c*h/6 else 0)
  else if i = 1 then
    (if j = 0 then -alpha/h - b/2 + c*h/6 else if j = 1 then alpha/h - b/2 + c*h/3 else 0)
  else 0

/-- Performs `A[k:k+2, k:k+2] += E`: add the 2×2 matrix `E` into the block of `A` at
rows and columns `{k, k+1}`. -/
def addBlock (A : ℕ → ℕ → ℚ) (k : ℕ) (E : ℕ → ℕ → ℚ) : ℕ → ℕ → ℚ :=
  fun i j =>
    A i j + (if k ≤ i ∧ i ≤ k + 1 ∧ k ≤ j ∧ j ≤ k + 1 then E (i - k) (j - k) else 0)

/-- The accumulation loop of `stiffness_matrix` after `n` iterations:
`A = np.zeros((M, M))`, then `for k in range(n): A[k:k+2, k:k+2] +=
elemental_stiffness_matrix(alpha, b, c, H[k])`.  The full loop is `n = M-1`. -/
def stiffAccum (alpha b c : ℚ) (H : List ℚ) : ℕ → ℕ → ℕ → ℚ
  | 0 => fun _ _ => 0
  | n + 1 =>
    addBlock (stiffAccum alpha b c H n) n
      (elemental_stiffness_matrix alpha b c (H.getD n 0))

/-- Embeds `stiffness_matrix(alpha, b, c, H, M)`: element accumulation followed by
the boundary-row overwrite `A[([0,-1],[0,-1])] = 1; A[([0,-1],[1,-2])] = 0`
(the later assignment wins where they could overlap). -/
def stiffness_matrix (alpha b c : ℚ) (H : List ℚ) (M : ℕ) : ℕ → ℕ → ℚ :=
  fun i j =>
    if (i = 0 ∧ j = 1) ∨ (i = M - 1 ∧ j = M - 2) then 0
    else if (i = 0 ∧ j = 0) ∨ (i = M - 1 ∧ j = M - 1) then 1
    else stiffAccum alpha b c H (M - 1) i j

/-- Closed form of one entry of the accumulated (pre-overwrite) global
stiffness matrix after `n` loop iterations: the matrix is tridiagonal, and
each entry is the sum of the elemental-matrix entries scattered there.  This
is the specification the accumulation loop is proved against. -/
def accEntry (alpha b c : ℚ) (H : List ℚ) (n i j : ℕ) : ℚ :=
  if i = j then
    (if i < n then alpha/(H.getD i 0) + b/2 + c*(H.getD i 0)/3 else 0) +
    (if 1 ≤ i ∧ i ≤ n then alpha/(H.getD (i-1) 0) - b/2 + c*(H.getD (i-1) 0)/3 else 0)
  else if j = i + 1 then
    (if i < n then -(alpha/(H.getD i 0)) + b/2 + c*(H.getD i 0)/6 else 0)
  else if i = j + 1 then
    (if j < n then -(alpha/(H.getD j 0)) - b/2 + c*(H.getD j 0)/6 else 0)
  else 0

/-! ## load_vector_non_smooth.py -/

/-- Embeds `hat_up(x, x0, x1) = (x-x0)/(x1-x0)`: first half of the hat function,
with peak at `x1`. -/
def hat_up (x : Q3) (x0 x1 : ℚ) : Q3 :=
  (x - Q3.ofRat x0) / Q3.ofRat (x1 - x0)

/-- Embeds `hat_down(x, x0, x1) = (x1-x)/(x1-x0)`: last half of the hat function,
with peak at `x0`. -/
def hat_down (x : Q3) (x0 x1 : ℚ) : Q3 :=
  (Q3.ofRat x1 - x) / Q3.ofRat (x1 - x0)

/-- Embeds `elemental_load_vector_non_smooth_solution(alpha, b, c)`: the factory
returning the closure `(u, x0, x1) ↦ [gaussian_quad(b·u/h + c·u·hat_up) - A,
gaussian_quad(-b·u/h + c·u·hat_down) + A]` with `h = x1-x0` and
`A = alpha·(u(x1)-u(x0))/h`. -/
def elemental_load_vector_non_smooth_solution (alpha b c : ℚ) :
    (Q3 → Q3) → ℚ → ℚ → Q3 × Q3 :=
  fun u x0 x1 =>
    let h := x1 - x0
    let A := Q3.ofRat alpha * (u (Q3.ofRat x1) - u (Q3.ofRat x0)) / Q3.ofRat h
    (gaussian_quad
        (fun x => Q3.ofRat b * u x / Q3.ofRat h + Q3.ofRat c * u x * hat_up x x0 x1) x0 x1
      - A,
     gaussian_quad
        (fun x => -(Q3.ofRat b) * u x / Q3.ofRat h + Q3.ofRat c * u x * hat_down x x0 x1) x0 x1
      + A)

/-! ## Concrete inputs used by counterexamples and witnesses -/

/-- The constant source `f(x) = 1`. -/
def exF : Q3 → Q3 := fun _ => 1

/-- The mesh `X = [0, 1, 2, 3]` (`M = 4`). -/
def exX4 : PyVec ℚ := ⟨4, fun j => (j : ℚ)⟩

/-- The mesh `X = [0, 1, 2]` (`M = 3`). -/
def exX3 : PyVec ℚ := ⟨3, fun j => (j : ℚ)⟩

/-- The mesh `X = [0, 1]` (`M = 2`). -/
def exX2 : PyVec ℚ := ⟨2, fun j => (j : ℚ)⟩

/-! # Theorems -/

namespace Q3

@[simp] theorem zero_a : (0 : Q3).a = 0 := rfl
@[simp] theorem zero_b : (0 : Q3).b = 0 := rfl
@[simp] theorem one_a : (1 : Q3).a = 1 := rfl
@[simp] theorem one_b : (1 : Q3).b = 0 := rfl
@[simp] theorem add_a (x y : Q3) : (x + y).a = x.a + y.a := rfl
@[simp] theorem add_b (x y : Q3) : (x + y).b = x.b + y.b := rfl
@[simp] theorem neg_a (x : Q3) : (-x).a = -x.a := rfl
@[simp] theorem neg_b (x : Q3) : (-x).b = -x.b := rfl
@[simp] theorem sub_a (x y : Q3) : (x - y).a = x.a - y.a := rfl
@[simp] theorem sub_b (x y : Q3) : (x - y).b = x.b - y.b := rfl
@[simp] theorem mul_a (x y : Q3) : (x * y).a = x.a * y.a + 3 * x.b * y.b := rfl
@[simp] theorem mul_b (x y : Q3) : (x * y).b = x.a * y.b + x.b * y.a := rfl
@[simp] theorem inv_a (x : Q3) : (x⁻¹).a = x.a / (x.a ^ 2 - 3 * x.b ^ 2) := rfl
@[simp] theorem inv_b (x : Q3) : (x⁻¹).b = -x.b / (x.a ^ 2 - 3 * x.b ^ 2) := rfl
@[simp] theorem ofRat_a (q : ℚ) : (ofRat q).a = q := rfl
@[simp] theorem ofRat_b (q : ℚ) : (ofRat q).b = 0 := rfl

theorem div_eq (x y : Q3) : x / y = x * y⁻¹ := rfl

theorem ext1 {x y : Q3} (ha : x.a = y.a) (hb : x.b = y.b) : x = y := by
  cases x; cases y; cases ha; cases hb; rfl

theorem zero_add1 (x : Q3) : 0 + x = x := by
  apply ext1 <;> simp

theorem add_zero1 (x : Q3) : x + 0 = x := by
  apply ext1 <;> simp

end Q3

@[simp] theorem ok_bind {ε α β : Type} (x : α) (f : α → Except ε β) :
    (Except.ok x >>= f) = f x := rfl

@[simp] theorem error_bind {ε α β : Type} (e : ε) (f : α → Except ε β) :
    ((Except.error e : Except ε α) >>= f) = Except.error e := rfl

@[simp] theorem map_ok {ε α β : Type} (f : α → β) (x : α) :
    (Except.ok x : Except ε α).map f = Except.ok (f x) := rfl

@[simp] theorem map_error {ε α β : Type} (f : α → β) (e : ε) :
    (Except.error e : Except ε α).map f = (Except.error e : Except ε β) := rfl

theorem pyIdx_natCast (len n : ℕ) (h : n < len) : pyIdx len (n : ℤ) = Except.ok n := by
  unfold pyIdx
  rw [if_pos (by omega : (0:ℤ) ≤ (n:ℤ)), if_pos (by omega : (n:ℤ) < (len:ℤ))]
  simp

theorem pyIdx_neg1 (len : ℕ) (h : 1 ≤ len) : pyIdx len (-1) = Except.ok (len - 1) := by
  unfold pyIdx
  rw [if_neg (by omega : ¬ (0:ℤ) ≤ -1), if_pos (by omega : (0:ℤ) ≤ (len:ℤ) + (-1))]
  congr 1
  omega

theorem pyIdx_neg2 (len : ℕ) (h : 2 ≤ len) : pyIdx len (-2) = Except.ok (len - 2) := by
  unfold pyIdx
  rw [if_neg (by omega : ¬ (0:ℤ) ≤ -2), if_pos (by omega : (0:ℤ) ≤ (len:ℤ) + (-2))]
  congr 1
  omega

theorem get1_natCast {α : Type} (v : PyVec α) (n : ℕ) (h : n < v.len) :
    v.get1 (n : ℤ) = Except.ok (v.val n) := by
  rw [PyVec.get1, pyIdx_natCast v.len n h]
  rfl

theorem get1_neg1 {α : Type} (v : PyVec α) (h : 1 ≤ v.len) :
    v.get1 (-1) = Except.ok (v.val (v.len - 1)) := by
  rw [PyVec.get1, pyIdx_neg1 v.len h]
  rfl

theorem get1_neg2 {α : Type} (v : PyVec α) (h : 2 ≤ v.len) :
    v.get1 (-2) = Except.ok (v.val (v.len - 2)) := by
  rw [PyVec.get1, pyIdx_neg2 v.len h]
  rfl

theorem set1_natCast {α : Type} (v : PyVec α) (n : ℕ) (x : α) (h : n < v.len) :
    v.set1 (n : ℤ) x = Except.ok ⟨v.len, fun j => if j = n then x else v.val j⟩ := by
  rw [PyVec.set1, pyIdx_natCast v.len n h]
  rfl

theorem set1_neg2 {α : Type} (v : PyVec α) (x : α) (h : 2 ≤ v.len) :
    v.set1 (-2) x = Except.ok ⟨v.len, fun j => if j = v.len - 2 then x else v.val j⟩ := by
  rw [PyVec.set1, pyIdx_neg2 v.len h]
  rfl

/-- Closed form of the element-accumulation loop of `load_vector`: after `n`
in-bounds iterations, position `j` has received the `φ0`-contribution of
element `j` (when `j < n`) and the `φ1`-contribution of element `j-1`
(when `1 ≤ j ≤ n`). -/
theorem loadLoop_eq (f : Q3 → Q3) (X : PyVec ℚ) (n : ℕ) :
    ∀ F : PyVec Q3, n < X.len → n < F.len →
    ∃ G : PyVec Q3, loadLoop f X n F = Except.ok G ∧ G.len = F.len ∧
      ∀ j : ℕ, G.val j = F.val j
        + (if j < n then (elemental_load_vector f (X.val j) (X.val (j+1))).1 else 0)
        + (if 1 ≤ j ∧ j ≤ n then (elemental_load_vector f (X.val (j-1)) (X.val j)).2 else 0) := by
  induction n with
  | zero =>
    intro F _ _
    refine ⟨F, rfl, rfl, fun j => ?_⟩
    rw [if_neg (by omega : ¬ j < 0), if_neg (by omega : ¬ (1 ≤ j ∧ j ≤ 0)),
      Q3.add_zero1, Q3.add_zero1]
  | succ n ih =>
    intro F hX hF
    obtain ⟨G, hG, hlen, hval⟩ := ih F (by omega) (by omega)
    have hXn : (n : ℕ) < X.len := by omega
    have hXn1 : (n + 1 : ℕ) < X.len := hX
    have hGb : n + 1 < G.len := by omega
    refine ⟨⟨G.len, fun j =>
      if j = n then G.val j + (elemental_load_vector f (X.val n) (X.val (n+1))).1
      else if j = n + 1 then G.val j + (elemental_load_vector f (X.val n) (X.val (n+1))).2
      else G.val j⟩, ?_, by simpa using hlen, ?_⟩
    · show loadLoop f X (n+1) F = _
      rw [loadLoop, hG, ok_bind, get1_natCast X n hXn, ok_bind]
      have : ((n : ℤ) + 1) = ((n + 1 : ℕ) : ℤ) := by push_cast; ring
      rw [this, get1_natCast X (n+1) hXn1, ok_bind, sliceAdd2, if_pos hGb]
    · intro j
      show (if j = n then G.val j + (elemental_load_vector f (X.val n) (X.val (n+1))).1
        else if j = n + 1 then G.val j + (elemental_load_vector f (X.val n) (X.val (n+1))).2
        else G.val j) = _
      rw [hval j]
      split_ifs <;>
        first
          | (exfalso; omega)
          | (subst_vars; apply Q3.ext1 <;> simp <;> ring)

@[simp] theorem okVal?_ok (v : PyVec Q3) (j : ℕ) :
    okVal? (Except.ok v) j = some (v.val j) := rfl

@[simp] theorem okVal?_error (e : PyErr) (j : ℕ) :
    okVal? (Except.error e) j = none := rfl

@[simp] theorem okLen?_ok (v : PyVec Q3) : okLen? (Except.ok v) = some v.len := rfl

@[simp] theorem okLen?_error (e : PyErr) : okLen? (Except.error e) = none := rfl

theorem get1_zero {α : Type} (v : PyVec α) (h : 0 < v.len) :
    v.get1 0 = Except.ok (v.val 0) := by
  rw [PyVec.get1, pyIdx, if_pos (by omega : (0:ℤ) ≤ 0),
    if_pos (by omega : (0:ℤ) < (v.len : ℤ))]
  rfl

theorem get1_one {α : Type} (v : PyVec α) (h : 1 < v.len) :
    v.get1 1 = Except.ok (v.val 1) := by
  rw [PyVec.get1, pyIdx, if_pos (by omega : (0:ℤ) ≤ 1),
    if_pos (by omega : (1:ℤ) < (v.len : ℤ))]
  rfl

theorem get1_two {α : Type} (v : PyVec α) (h : 2 < v.len) :
    v.get1 2 = Except.ok (v.val 2) := by
  rw [PyVec.get1, pyIdx, if_pos (by omega : (0:ℤ) ≤ 2),
    if_pos (by omega : (2:ℤ) < (v.len : ℤ))]
  rfl

theorem get1_two_err {α : Type} (v : PyVec α) (h : v.len ≤ 2) :
    v.get1 2 = Except.error PyErr.indexError := by
  rw [PyVec.get1, pyIdx, if_pos (by omega : (0:ℤ) ≤ 2),
    if_neg (by omega : ¬ (2:ℤ) < (v.len : ℤ))]
  rfl

theorem set1_two {α : Type} (v : PyVec α) (x : α) (h : 2 < v.len) :
    v.set1 2 x = Except.ok ⟨v.len, fun j => if j = 2 then x else v.val j⟩ := by
  rw [PyVec.set1, pyIdx, if_pos (by omega : (0:ℤ) ≤ 2),
    if_pos (by omega : (2:ℤ) < (v.len : ℤ))]
  rfl

/-- Closed form of the accumulation phase of `load_vector` for any `M ≥ 1`
with mesh length `M`: it succeeds, keeps length `M`, and position `j` holds
exactly the `φ0`-contribution of element `j` (for `j < M-1`) plus the
`φ1`-contribution of element `j-1` (for `1 ≤ j ≤ M-1`). -/
theorem loadAccum_eq (f : Q3 → Q3) (X : PyVec ℚ) (M : ℕ) (hM : 1 ≤ M)
    (hX : X.len = M) :
    ∃ G : PyVec Q3, loadAccum f X M = Except.ok G ∧ G.len = M ∧
      ∀ j : ℕ, G.val j =
        (if j < M - 1 then (elemental_load_vector f (X.val j) (X.val (j+1))).1 else 0)
        + (if 1 ≤ j ∧ j ≤ M - 1 then
            (elemental_load_vector f (X.val (j-1)) (X.val j)).2 else 0) := by
  obtain ⟨G, hG, hlen, hval⟩ :=
    loadLoop_eq f X (M - 1) ⟨M, fun _ => 0⟩ (by omega) (by show M - 1 < M; omega)
  refine ⟨G, hG, by simpa using hlen, fun j => ?_⟩
  rw [hval j]
  show 0 + _ + _ = _
  rw [Q3.zero_add1]

/-- C1 (amended): in load-vector assembly the element loop runs over ALL
element indices `i = 0 .. M-2` — not only the interior ones `1 .. M-3` — and
for every mesh `X` of length `M ≥ 4`, every source `f` and every position
`j < M`, the accumulated entry `F[j]` is exactly the `φ0`-contribution of
element `j` (present iff `j ≤ M-2`) plus the `φ1`-contribution of element
`j-1` (present iff `1 ≤ j`); in particular the boundary-adjacent elements `0`
and `M-2` do contribute. -/
theorem C1_element_loop_runs_over_all_elements (f : Q3 → Q3) (X : PyVec ℚ) (M : ℕ)
    (hM : 4 ≤ M) (hX : X.len = M) (j : ℕ) (hj : j < M) :
    okVal? (loadAccum f X M) j =
      some ((if j ≤ M - 2 then (elemental_load_vector f (X.val j) (X.val (j+1))).1 else 0)
        + (if 1 ≤ j then (elemental_load_vector f (X.val (j-1)) (X.val j)).2 else 0)) := by
  obtain ⟨G, hG, hlen, hval⟩ := loadAccum_eq f X M (by omega) hX
  rw [hG, okVal?_ok, hval j]
  split_ifs <;> first | (exfalso; omega) | rfl

/-- C1 witness: the amended loop description instantiated at
`f = 1`, `X = [0,1,2,3]`, `M = 4`, `j = 2`. -/
theorem C1_element_loop_runs_over_all_elements_witness :
    okVal? (loadAccum exF exX4 4) 2 =
      some ((if 2 ≤ 4 - 2 then (elemental_load_vector exF (exX4.val 2) (exX4.val 3)).1 else 0)
        + (if 1 ≤ 2 then (elemental_load_vector exF (exX4.val 1) (exX4.val 2)).2 else 0)) :=
  C1_element_loop_runs_over_all_elements exF exX4 4 (by norm_num) rfl 2 (by norm_num)

/-- C1 counterexample: with `f = 1`, `X = [0,1,2,3]`, `M = 4`, the original
element loop leaves `F[1] = 1` (elements `0` and `1` both contribute `1/2`),
whereas an accumulation restricted to the interior elements `1 .. M-3` — as
the claim states it — leaves `1/2` there; so element `0`, outside `1..M-3`,
does contribute. -/
theorem C1_counterexample :
    okVal? (loadAccum exF exX4 4) 1 = some 1 ∧
    loadAccumClaimed exF exX4 4 1 = Q3.ofRat (1/2) ∧
    (1 : Q3) ≠ Q3.ofRat (1/2) := by
  refine ⟨?_, ?_, ?_⟩
  · simp only [loadAccum, loadLoop, exX4, PyVec.get1, pyIdx]
    norm_num [okVal?, sliceAdd2, elemental_load_vector]
    apply Q3.ext1 <;>
      simp [quadrature_phi0, quadrature_phi1, gaussian_quad, exF, ksi0, ksi1, Q3.div_eq] <;>
      norm_num
  · simp only [loadAccumClaimed, show (4:ℕ) - 3 = 1 from rfl, List.range_succ,
      List.range_zero, List.nil_append, List.map_cons, List.map_nil, List.foldl_cons,
      List.foldl_nil]
    norm_num [elemental_load_vector]
    apply Q3.ext1 <;>
      simp [quadrature_phi0, gaussian_quad, exF, exX4, ksi0, ksi1, Q3.div_eq,
        Q3.zero_add1] <;>
      norm_num
  · intro h
    have ha := congrArg Q3.a h
    simp at ha

/-- The boundary-correction and restriction phase of `load_vector`, given a
successful accumulation result `G` of length `M ≥ 3`: the call succeeds and
returns the vector of length `M-2` whose entry `k` holds `F[k+1]` after the
two corrections were added at global positions `2` and `M-2`. -/
theorem load_vector_eq (f : Q3 → Q3) (X : PyVec ℚ) (M : ℕ) (g0 g1 : ℚ) (G : PyVec Q3)
    (hG : loadAccum f X M = Except.ok G) (hlen : G.len = M) (hX : X.len = M)
    (hM : 3 ≤ M) :
    ∃ R : PyVec Q3, load_vector f X M g0 g1 = Except.ok R ∧ R.len = M - 2 ∧
      ∀ k : ℕ, R.val k = G.val (k+1)
        + (if k + 1 = 2 then Q3.ofRat (g0 / (X.val 1 - X.val 0)) else 0)
        + (if k + 1 = M - 2 then Q3.ofRat (g1 / (X.val (M-1) - X.val (M-2))) else 0) := by
  unfold load_vector
  simp only [hG, ok_bind]
  rw [get1_two G (by omega)]
  simp only [ok_bind]
  rw [get1_one X (by omega)]
  simp only [ok_bind]
  rw [get1_zero X (by omega)]
  simp only [ok_bind]
  rw [set1_two G _ (by omega)]
  simp only [ok_bind]
  rw [get1_neg2 _ (by show 2 ≤ G.len; omega)]
  simp only [ok_bind]
  rw [get1_neg1 X (by omega)]
  simp only [ok_bind]
  rw [get1_neg2 X (by omega)]
  simp only [ok_bind]
  rw [set1_neg2 _ _ (by show 2 ≤ G.len; omega)]
  simp only [ok_bind]
  refine ⟨_, rfl, ?_, ?_⟩
  · show G.len - 2 = M - 2
    omega
  · intro k
    dsimp only
    simp only [hlen, hX]
    by_cases hkM : k + 1 = M - 2
    · rw [if_pos hkM]
      by_cases hk2 : k + 1 = 2
      · rw [if_pos (show M - 2 = 2 by omega)]
        try rw [if_pos hk2]
        try rw [if_pos hkM]
        try rw [hk2]
        try first | rfl | (apply Q3.ext1 <;> simp <;> ring)
      · rw [if_neg (show ¬ M - 2 = 2 by omega)]
        try rw [if_neg hk2]
        try rw [if_pos hkM]
        try rw [← hkM]
        try first | rfl | (apply Q3.ext1 <;> simp <;> ring)
    · rw [if_neg hkM]
      by_cases hk2 : k + 1 = 2
      · rw [if_pos hk2]
        try rw [if_pos hk2]
        try rw [if_neg hkM]
        try rw [hk2]
        try first | rfl | (apply Q3.ext1 <;> simp <;> ring)
      · rw [if_neg hk2]
        try rw [if_neg hk2]
        try rw [if_neg hkM]
        try first | rfl | (apply Q3.ext1 <;> simp <;> ring)

/-- C2: for every mesh `X` of length `M ≥ 4` with distinct consecutive
boundary points, every source `f` and boundary values `g0, g1`: after element
accumulation, `load_vector` adds `g0/(X[1]-X[0])` to `F[2]` and
`g1/(X[M-1]-X[M-2])` to `F[M-2]`, then returns `F` with its first and last
entries removed, so the returned vector has length exactly `M-2` (its entry
`j-1` holds the accumulated `F[j]` plus the corrections landing at `j`). -/
theorem C2_boundary_corrections_and_reduced_length (f : Q3 → Q3) (X : PyVec ℚ)
    (M : ℕ) (g0 g1 : ℚ) (hM : 4 ≤ M) (hX : X.len = M)
    (h01 : X.val 0 ≠ X.val 1) (hlast : X.val (M-2) ≠ X.val (M-1)) :
    okLen? (load_vector f X M g0 g1) = some (M - 2) ∧
    ∀ j y, okVal? (loadAccum f X M) j = some y → 1 ≤ j → j ≤ M - 2 →
      okVal? (load_vector f X M g0 g1) (j - 1) =
        some (y + (if j = 2 then Q3.ofRat (g0 / (X.val 1 - X.val 0)) else 0)
                + (if j = M - 2 then Q3.ofRat (g1 / (X.val (M-1) - X.val (M-2))) else 0)) := by
  obtain ⟨G, hG, hGlen, _⟩ := loadAccum_eq f X M (by omega) hX
  obtain ⟨R, hR, hRlen, hRval⟩ := load_vector_eq f X M g0 g1 G hG hGlen hX (by omega)
  constructor
  · rw [hR, okLen?_ok, hRlen]
  · intro j y hy h1 h2
    rw [hG, okVal?_ok, Option.some.injEq] at hy
    rw [hR, okVal?_ok, hRval (j-1), Option.some.injEq]
    have hj : j - 1 + 1 = j := by omega
    rw [hj, hy]

/-- C2 witness: the mesh `[0,1,2,3]` with `f = 1`, `g0 = g1 = 1` yields a
reduced load vector of length `4 - 2 = 2`. -/
theorem C2_boundary_corrections_and_reduced_length_witness :
    okLen? (load_vector exF exX4 4 1 1) = some 2 :=
  (C2_boundary_corrections_and_reduced_length exF exX4 4 1 1 (by norm_num) rfl
    (by norm_num [exX4]) (by norm_num [exX4])).1

/-- C10: `load_vector` performs no mesh-size validation: for every `M ≤ 2`
(with `X` of length `M`) the call raises `IndexError` at the boundary
correction `F[2] += g0/(X[1]-X[0])` — the global vector has length `M < 3` —
while for every `M ≥ 3` the subscript `F[2]` is in bounds and the call
returns a vector. -/
theorem C10_small_mesh_index_error :
    (∀ (f : Q3 → Q3) (X : PyVec ℚ) (M : ℕ) (g0 g1 : ℚ), M ≤ 2 → X.len = M →
      load_vector f X M g0 g1 = Except.error PyErr.indexError) ∧
    (∀ (f : Q3 → Q3) (X : PyVec ℚ) (M : ℕ) (g0 g1 : ℚ), 3 ≤ M → X.len = M →
      ∃ R : PyVec Q3, load_vector f X M g0 g1 = Except.ok R) := by
  constructor
  · intro f X M g0 g1 hM hX
    match M, hM with
    | 0, _ =>
      unfold load_vector
      rw [show loadAccum f X 0 = Except.ok ⟨0, fun _ => (0:Q3)⟩ from rfl]
      simp only [ok_bind]
      rw [get1_two_err _ (by show (0:ℕ) ≤ 2; norm_num)]
      simp only [error_bind]
    | 1, _ =>
      unfold load_vector
      rw [show loadAccum f X 1 = Except.ok ⟨1, fun _ => (0:Q3)⟩ from rfl]
      simp only [ok_bind]
      rw [get1_two_err _ (by show (1:ℕ) ≤ 2; norm_num)]
      simp only [error_bind]
    | 2, _ =>
      obtain ⟨G, hG, hGlen, _⟩ := loadAccum_eq f X 2 (by norm_num) hX
      unfold load_vector
      simp only [hG, ok_bind]
      rw [get1_two_err G (by omega)]
      simp only [error_bind]
  · intro f X M g0 g1 hM hX
    obtain ⟨G, hG, hGlen, _⟩ := loadAccum_eq f X M (by omega) hX
    obtain ⟨R, hR, _, _⟩ := load_vector_eq f X M g0 g1 G hG hGlen hX hM
    exact ⟨R, hR⟩

/-- C10 witness: the two-point mesh `[0, 1]` (`M = 2`) raises `IndexError`. -/
theorem C10_small_mesh_index_error_witness :
    load_vector exF exX2 2 0 0 = Except.error PyErr.indexError :=
  C10_small_mesh_index_error.1 exF exX2 2 0 0 (by norm_num) rfl

/-- C4 is contradicted by the source: nothing named `InvalidMeshError` exists
and no validation is performed.  At the failing input `M = 3` (mesh
`[0,1,2]`, `f = 1`, `g0 = g1 = 0`) — where the claim demands a validation
error because `M < 4` — `load_vector` silently returns the vector `[1]` of
length `1`. -/
theorem C4_no_validation_returns_vector_at_M3 :
    okLen? (load_vector exF exX3 3 0 0) = some 1 ∧
    okVal? (load_vector exF exX3 3 0 0) 0 = some 1 := by
  obtain ⟨G, hG, hGlen, hGval⟩ := loadAccum_eq exF exX3 3 (by norm_num) rfl
  obtain ⟨R, hR, hRlen, hRval⟩ := load_vector_eq exF exX3 3 0 0 G hG hGlen rfl (by norm_num)
  constructor
  · rw [hR, okLen?_ok, hRlen]
  · rw [hR, okVal?_ok, hRval 0, show (0:ℕ) + 1 = 1 from rfl, hGval 1]
    norm_num
    apply Q3.ext1 <;>
      simp [elemental_load_vector, quadrature_phi0, quadrature_phi1, gaussian_quad,
        exF, exX3, ksi0, ksi1, Q3.div_eq, Q3.ofRat] <;>
      norm_num

/-- Entries with `|i-j| > 1` are never touched by the accumulation loop. -/
theorem stiffAccum_far (alpha b c : ℚ) (H : List ℚ) :
    ∀ n i j, i + 1 < j ∨ j + 1 < i → stiffAccum alpha b c H n i j = 0 := by
  intro n
  induction n with
  | zero => intro i j _; rfl
  | succ n ih =>
    intro i j hij
    show addBlock (stiffAccum alpha b c H n) n
      (elemental_stiffness_matrix alpha b c (H.getD n 0)) i j = 0
    unfold addBlock
    rw [ih i j hij, if_neg (by omega), add_zero]

/-- Closed form of the diagonal entries of the accumulated matrix. -/
theorem stiffAccum_diag (alpha b c : ℚ) (H : List ℚ) :
    ∀ n i, stiffAccum alpha b c H n i i =
      (if i < n then alpha/(H.getD i 0) + b/2 + c*(H.getD i 0)/3 else 0) +
      (if 1 ≤ i ∧ i ≤ n then alpha/(H.getD (i-1) 0) - b/2 + c*(H.getD (i-1) 0)/3 else 0) := by
  intro n
  induction n with
  | zero =>
    intro i
    rw [if_neg (by omega), if_neg (by omega), add_zero]
    rfl
  | succ n ih =>
    intro i
    show stiffAccum alpha b c H n i i + _ = _
    rw [ih i]
    unfold elemental_stiffness_matrix
    by_cases hin : i = n
    · subst hin
      split_ifs <;> first | (exfalso; omega) | ring
    · by_cases hin1 : i = n + 1
      · subst hin1
        simp only [Nat.add_sub_cancel]
        split_ifs <;> first | (exfalso; omega) | ring
      · split_ifs <;> first | (exfalso; omega) | ring

/-- Closed form of the superdiagonal entries of the accumulated matrix. -/
theorem stiffAccum_super (alpha b c : ℚ) (H : List ℚ) :
    ∀ n i, stiffAccum alpha b c H n i (i+1) =
      (if i < n then -(alpha/(H.getD i 0)) + b/2 + c*(H.getD i 0)/6 else 0) := by
  intro n
  induction n with
  | zero =>
    intro i
    rw [if_neg (by omega)]
    rfl
  | succ n ih =>
    intro i
    show stiffAccum alpha b c H n i (i+1) + _ = _
    rw [ih i]
    unfold elemental_stiffness_matrix
    by_cases hin : i = n
    · subst hin
      split_ifs <;> first | (exfalso; omega) | ring
    · split_ifs <;> first | (exfalso; omega) | ring

/-- Closed form of the subdiagonal entries of the accumulated matrix. -/
theorem stiffAccum_sub (alpha b c : ℚ) (H : List ℚ) :
    ∀ n j, stiffAccum alpha b c H n (j+1) j =
      (if j < n then -(alpha/(H.getD j 0)) - b/2 + c*(H.getD j 0)/6 else 0) := by
  intro n
  induction n with
  | zero =>
    intro j
    rw [if_neg (by omega)]
    rfl
  | succ n ih =>
    intro j
    show stiffAccum alpha b c H n (j+1) j + _ = _
    rw [ih j]
    unfold elemental_stiffness_matrix
    by_cases hjn : j = n
    · subst hjn
      split_ifs <;> first | (exfalso; omega) | ring
    · split_ifs <;> first | (exfalso; omega) | ring

/-- The accumulated matrix agrees entrywise with its tridiagonal closed form. -/
theorem stiffAccum_eq (alpha b c : ℚ) (H : List ℚ) (n i j : ℕ) :
    stiffAccum alpha b c H n i j = accEntry alpha b c H n i j := by
  unfold accEntry
  by_cases hij : i = j
  · subst hij
    rw [if_pos rfl, stiffAccum_diag]
  · rw [if_neg hij]
    by_cases hji : j = i + 1
    · subst hji
      rw [if_pos rfl, stiffAccum_super]
    · rw [if_neg hji]
      by_cases hij1 : i = j + 1
      · subst hij1
        rw [if_pos rfl, stiffAccum_sub]
      · rw [if_neg hij1, stiffAccum_far alpha b c H n i j (by omega)]

/-- C5: for every element `k = 0..M-2` with width `h = H[k]`, the elemental
stiffness matrix is exactly `[[α/h + b/2 + c·h/3, -α/h + b/2 + c·h/6],
[-α/h - b/2 + c·h/6, α/h - b/2 + c·h/3]]`, and the assembly loop adds this
2×2 block into rows/columns `{k, k+1}` of the zero-initialized global matrix:
entrywise, the accumulated matrix equals the tridiagonal closed form
`accEntry` obtained by scattering exactly those blocks. -/
theorem C5_elemental_matrix_and_block_scatter (alpha b c : ℚ) (H : List ℚ) (M : ℕ)
    (hM : 2 ≤ M) (hH : H.length = M - 1) :
    (∀ k, k ≤ M - 2 →
      elemental_stiffness_matrix alpha b c (H.getD k 0) 0 0
          = alpha/(H.getD k 0) + b/2 + c*(H.getD k 0)/3 ∧
      elemental_stiffness_matrix alpha b c (H.getD k 0) 0 1
          = -(alpha/(H.getD k 0)) + b/2 + c*(H.getD k 0)/6 ∧
      elemental_stiffness_matrix alpha b c (H.getD k 0) 1 0
          = -(alpha/(H.getD k 0)) - b/2 + c*(H.getD k 0)/6 ∧
      elemental_stiffness_matrix alpha b c (H.getD k 0) 1 1
          = alpha/(H.getD k 0) - b/2 + c*(H.getD k 0)/3) ∧
    (∀ i j, stiffAccum alpha b c H (M-1) i j = accEntry alpha b c H (M-1) i j) := by
  constructor
  · intro k _
    refine ⟨?_, ?_, ?_, ?_⟩ <;> (unfold elemental_stiffness_matrix; norm_num [neg_div])
  · intro i j
    exact stiffAccum_eq alpha b c H (M-1) i j

/-- C5 witness: the closed form instantiated at `α=1, b=2, c=3`, `H=[1,2]`,
`M=3`, entry `(1,1)`. -/
theorem C5_elemental_matrix_and_block_scatter_witness :
    stiffAccum 1 2 3 [1, 2] 2 1 1 = accEntry 1 2 3 [1, 2] 2 1 1 :=
  (C5_elemental_matrix_and_block_scatter 1 2 3 [1, 2] 3 (by norm_num) rfl).2 1 1

/-- C8: before the boundary-row overwrite the accumulated global stiffness
matrix is exactly tridiagonal — for all `i, j` with `|i-j| > 1` the entry is
exactly zero — and this holds after every loop iteration `n ≤ M-1`, in
particular after the loop completes (`n = M-1`). -/
theorem C8_tridiagonal_before_overwrite (alpha b c : ℚ) (H : List ℚ) (M : ℕ)
    (hM : 2 ≤ M) (hH : H.length = M - 1) (n : ℕ) (hn : n ≤ M - 1) (i j : ℕ)
    (hij : i + 1 < j ∨ j + 1 < i) :
    stiffAccum alpha b c H n i j = 0 :=
  stiffAccum_far alpha b c H n i j hij

/-- C8 witness: `A[0,2] = 0` after the full loop for `α=1, b=2, c=3`,
`H=[1,1]`, `M=3`. -/
theorem C8_tridiagonal_before_overwrite_witness :
    stiffAccum 1 2 3 [1, 1] 2 0 2 = 0 :=
  C8_tridiagonal_before_overwrite 1 2 3 [1, 1] 3 (by norm_num) rfl 2 (by norm_num)
    0 2 (Or.inl (by norm_num))

/-- C3 counterexample: with `α = 1 > 0`, `b = 0`, `c = 0 ≥ 0`, `M = 3 ≥ 2`
and positive widths `H = [1,1]`, the matrix RETURNED by `stiffness_matrix`
is not symmetric: the boundary overwrite zeroes `A[0,1]` but leaves
`A[1,0] = -α/H[0] = -1`. -/
theorem C3_counterexample :
    stiffness_matrix 1 0 0 [1, 1] 3 0 1 = 0 ∧
    stiffness_matrix 1 0 0 [1, 1] 3 1 0 = -1 ∧
    (0 : ℚ) ≠ -1 := by
  refine ⟨?_, ?_, by norm_num⟩
  · unfold stiffness_matrix
    rw [if_pos (Or.inl ⟨rfl, rfl⟩)]
  · unfold stiffness_matrix
    rw [if_neg (by norm_num), if_neg (by norm_num)]
    show stiffAccum 1 0 0 [1, 1] 2 (0+1) 0 = -1
    rw [stiffAccum_sub, if_pos (by norm_num)]
    norm_num

/-- C3 (amended): the global stiffness matrix is symmetric whenever `b = 0` —
for every `α > 0`, `c ≥ 0`, `M ≥ 2` and positive widths `H` of length `M-1` —
BEFORE the boundary-row overwrite (the returned matrix loses symmetry at the
two boundary rows because only `A[0,1]` and `A[M-1,M-2]` are zeroed, not
their transposes). -/
theorem C3_symmetric_before_overwrite_when_b_zero (alpha b c : ℚ) (H : List ℚ)
    (M : ℕ) (hb : b = 0) (halpha : 0 < alpha) (hc : 0 ≤ c) (hM : 2 ≤ M)
    (hH : H.length = M - 1) (hpos : ∀ k, k < M - 1 → 0 < H.getD k 0) (i j : ℕ) :
    stiffAccum alpha b c H (M-1) i j = stiffAccum alpha b c H (M-1) j i := by
  subst hb
  rw [stiffAccum_eq, stiffAccum_eq]
  unfold accEntry
  split_ifs <;> first | (exfalso; omega) | (subst_vars; ring)

/-- C3 witness: the amended symmetry at `α=1, b=0, c=0`, `H=[1,1]`, `M=3`,
entries `(0,1)` and `(1,0)` of the pre-overwrite matrix. -/
theorem C3_symmetric_before_overwrite_when_b_zero_witness :
    stiffAccum 1 0 0 [1, 1] 2 0 1 = stiffAccum 1 0 0 [1, 1] 2 1 0 :=
  C3_symmetric_before_overwrite_when_b_zero 1 0 0 [1, 1] 3 rfl (by norm_num)
    (by norm_num) (by norm_num) rfl
    (by
      intro k hk
      interval_cases k <;> simp [List.getD_cons_zero, List.getD_cons_succ] <;> norm_num)
    0 1

/-- C6: for every `α, b, c`, `M ≥ 2` and widths `H` of length `M-1`, the
returned stiffness matrix has one-hot boundary rows: `A[0,0] = 1`,
`A[M-1,M-1] = 1`, `A[0,1] = 0`, `A[M-1,M-2] = 0`, and every other entry of
rows `0` and `M-1` (inside the `M × M` matrix) is exactly zero. -/
theorem C6_boundary_rows_one_hot (alpha b c : ℚ) (H : List ℚ) (M : ℕ)
    (hM : 2 ≤ M) (hH : H.length = M - 1) :
    stiffness_matrix alpha b c H M 0 0 = 1 ∧
    stiffness_matrix alpha b c H M (M-1) (M-1) = 1 ∧
    stiffness_matrix alpha b c H M 0 1 = 0 ∧
    stiffness_matrix alpha b c H M (M-1) (M-2) = 0 ∧
    (∀ j, j < M → 2 ≤ j → stiffness_matrix alpha b c H M 0 j = 0) ∧
    (∀ j, j < M - 2 → stiffness_matrix alpha b c H M (M-1) j = 0) := by
  unfold stiffness_matrix
  refine ⟨?_, ?_, ?_, ?_, ?_, ?_⟩
  · rw [if_neg (by omega), if_pos (Or.inl ⟨rfl, rfl⟩)]
  · rw [if_neg (by omega), if_pos (Or.inr ⟨rfl, rfl⟩)]
  · rw [if_pos (Or.inl ⟨rfl, rfl⟩)]
  · rw [if_pos (Or.inr ⟨rfl, rfl⟩)]
  · intro j hj h2
    rw [if_neg (by omega), if_neg (by omega),
      stiffAccum_far alpha b c H (M-1) 0 j (by omega)]
  · intro j hj
    rw [if_neg (by omega), if_neg (by omega),
      stiffAccum_far alpha b c H (M-1) (M-1) j (by omega)]

/-- C6 witness: `A[0,0] = 1` at `α=1, b=2, c=3`, `H=[1,1]`, `M=3`. -/
theorem C6_boundary_rows_one_hot_witness :
    stiffness_matrix 1 2 3 [1, 1] 3 0 0 = 1 :=
  (C6_boundary_rows_one_hot 1 2 3 [1, 1] 3 (by norm_num) rfl).1

/-- Division by an embedded rational acts componentwise. -/
theorem Q3.div_ofRat (x : Q3) (q : ℚ) : x / Q3.ofRat q = ⟨x.a / q, x.b / q⟩ := by
  rcases eq_or_ne q 0 with h | h
  · subst h
    apply Q3.ext1 <;> simp [Q3.div_eq, Q3.inv1]
  · apply Q3.ext1 <;> simp [Q3.div_eq, Q3.inv1] <;> field_simp <;> ring

set_option maxHeartbeats 2000000 in
/-- C7: `gaussian_quad` (the 2-point Gauss-Legendre rule mapped affinely onto
`[x0,x1]` with weights `1,1`) is exact for every polynomial integrand of
degree at most 3 on every interval, and `quadrature_phi0` agrees with the
closed-form integral of `f(x)·(x-x0)/(x1-x0)` over `[x0,x1]` for `f(x) = x`
and `f(x) = x²` (exact arithmetic in `ℚ(√3)`). -/
theorem C7_gauss_legendre_exact_deg3 :
    (∀ (a0 a1 a2 a3 : Q3) (x0 x1 : ℚ),
      gaussian_quad (fun x => a3*x*x*x + a2*x*x + a1*x + a0) x0 x1 =
        a3 * Q3.ofRat ((x1^4 - x0^4)/4) + a2 * Q3.ofRat ((x1^3 - x0^3)/3)
          + a1 * Q3.ofRat ((x1^2 - x0^2)/2) + a0 * Q3.ofRat (x1 - x0)) ∧
    (∀ x0 x1 : ℚ, x0 ≠ x1 →
      quadrature_phi0 (fun x => x) x0 x1 =
        Q3.ofRat (((x1^3 - x0^3)/3 - x0*(x1^2 - x0^2)/2)/(x1 - x0))) ∧
    (∀ x0 x1 : ℚ, x0 ≠ x1 →
      quadrature_phi0 (fun x => x*x) x0 x1 =
        Q3.ofRat (((x1^4 - x0^4)/4 - x0*(x1^3 - x0^3)/3)/(x1 - x0))) := by
  refine ⟨?_, ?_, ?_⟩
  · intro a0 a1 a2 a3 x0 x1
    apply Q3.ext1 <;>
      simp only [gaussian_quad, ksi0, ksi1, Q3.div_eq, Q3.mul_a, Q3.mul_b, Q3.add_a,
        Q3.add_b, Q3.sub_a, Q3.sub_b, Q3.neg_a, Q3.neg_b, Q3.inv_a, Q3.inv_b,
        Q3.ofRat_a, Q3.ofRat_b] <;>
      ring
  · intro x0 x1 hne
    have h : x1 - x0 ≠ 0 := fun h => hne (by linarith [sub_eq_zero.mp h])
    apply Q3.ext1 <;>
      simp only [quadrature_phi0, gaussian_quad, ksi0, ksi1, Q3.div_ofRat, Q3.mul_a,
        Q3.mul_b, Q3.add_a, Q3.add_b, Q3.sub_a, Q3.sub_b, Q3.neg_a, Q3.neg_b,
        Q3.ofRat_a, Q3.ofRat_b] <;>
      field_simp <;>
      ring
  · intro x0 x1 hne
    have h : x1 - x0 ≠ 0 := fun h => hne (by linarith [sub_eq_zero.mp h])
    apply Q3.ext1 <;>
      simp only [quadrature_phi0, gaussian_quad, ksi0, ksi1, Q3.div_ofRat, Q3.mul_a,
        Q3.mul_b, Q3.add_a, Q3.add_b, Q3.sub_a, Q3.sub_b, Q3.neg_a, Q3.neg_b,
        Q3.ofRat_a, Q3.ofRat_b] <;>
      field_simp <;>
      ring

/-- C7 witness: exactness instantiated on `[0,1]` for `f(x) = x`:
`∫₀¹ x·x dx = 1/3`. -/
theorem C7_gauss_legendre_exact_deg3_witness :
    quadrature_phi0 (fun x => x) 0 1 =
      Q3.ofRat (((1^3 - 0^3)/3 - 0*(1^2 - 0^2)/2)/(1 - 0)) :=
  C7_gauss_legendre_exact_deg3.2.1 0 1 (by norm_num)

/-- C9: the non-smooth-variant elemental load vector is exactly
`[Q(b·u(x)/h + c·u(x)·(x-x0)/h) - A, Q(-b·u(x)/h + c·u(x)·(x1-x)/h) + A]`,
where `Q` is the 2-point Gauss-Legendre quadrature over `[x0,x1]`,
`h = x1-x0`, and `A = α·(u(x1)-u(x0))/h` is the analytic diffusive-flux term,
subtracted at the first endpoint and added at the second. -/
theorem C9_non_smooth_elemental_load_vector (alpha b c : ℚ) (u : Q3 → Q3)
    (x0 x1 : ℚ) :
    elemental_load_vector_non_smooth_solution alpha b c u x0 x1 =
      (gaussian_quad (fun x => Q3.ofRat b * u x / Q3.ofRat (x1 - x0)
          + Q3.ofRat c * u x * (x - Q3.ofRat x0) / Q3.ofRat (x1 - x0)) x0 x1
        - Q3.ofRat alpha * (u (Q3.ofRat x1) - u (Q3.ofRat x0)) / Q3.ofRat (x1 - x0),
       gaussian_quad (fun x => -(Q3.ofRat b) * u x / Q3.ofRat (x1 - x0)
          + Q3.ofRat c * u x * (Q3.ofRat x1 - x) / Q3.ofRat (x1 - x0)) x0 x1
        + Q3.ofRat alpha * (u (Q3.ofRat x1) - u (Q3.ofRat x0)) / Q3.ofRat (x1 - x0)) := by
  unfold elemental_load_vector_non_smooth_solution hat_up hat_down
  refine Prod.ext ?_ ?_
  · show gaussian_quad _ x0 x1 - _ = gaussian_quad _ x0 x1 - _
    apply Q3.ext1 <;>
      simp only [gaussian_quad, ksi0, ksi1, Q3.div_ofRat, Q3.mul_a, Q3.mul_b, Q3.add_a,
        Q3.add_b, Q3.sub_a, Q3.sub_b, Q3.neg_a, Q3.neg_b, Q3.ofRat_a, Q3.ofRat_b] <;>
      ring
  · show gaussian_quad _ x0 x1 + _ = gaussian_quad _ x0 x1 + _
    apply Q3.ext1 <;>
      simp only [gaussian_quad, ksi0, ksi1, Q3.div_ofRat, Q3.mul_a, Q3.mul_b, Q3.add_a,
        Q3.add_b, Q3.sub_a, Q3.sub_b, Q3.neg_a, Q3.neg_b, Q3.ofRat_a, Q3.ofRat_b] <;>
      ring
